import Mathlib
/-!
Verification of the continuation-power-flow engine of
`grid/ContinuationPowerFlow.py`.

Shallow embedding conventions:
* Python floats are modelled as real numbers (`ℝ`), complex bus voltages as
  `List ℂ`; `numpy.angle` is `Complex.arg` and `abs` is `Complex.abs`.
* numpy fancy indexing `xs[idx]` with a list of indices is embedded by `sel`
  for the bus-index selections (pv / pq / pvpq sets, whose in-boundedness is a
  documented precondition of the interface), and by the bounds-checked
  `selOpt` for the reads of the tangent vector `z` inside the pseudo
  arc-length branches, where the source's index arithmetic is itself in
  question; an out-of-bounds fancy read raises `IndexError` in numpy, which
  `selOpt` models by `none`.
* A Python function that can raise is embedded with result type `Option _`
  (`none` = an exception escapes); falling off the end of the
  `if/elif` chain of `cpf_p`/`cpf_p_jac` leaves the local `P` unbound and the
  `return` raises `UnboundLocalError`, also modelled by `none`.
-/

-- ## Definitions: the shallow embedding

/-- numpy fancy read `xs[idx]`, total form: used for selections whose indices
are in bounds by the interface contract (bus index sets within `0..nb-1`). -/
def sel (xs : List ℝ) (idx : List ℕ) : List ℝ :=
  idx.map fun i => xs.getD i 0

/-- numpy fancy read `xs[idx]`, bounds-checked form: `none` models the
`IndexError` numpy raises when any index is out of bounds. -/
def selOpt (xs : List ℝ) (idx : List ℕ) : Option (List ℝ) :=
  idx.foldr (fun i acc =>
    match xs.get? i, acc with
    | some v, some l => some (v :: l)
    | _, _ => none) (some [])

/-- Elementwise difference of two vectors (`a - b` in numpy). -/
def listSub (a b : List ℝ) : List ℝ :=
  List.zipWith (fun x y => x - y) a b

/-- `numpy.dot` of two real vectors. -/
def dot (a b : List ℝ) : ℝ :=
  (List.zipWith (fun x y => x * y) a b).sum

/-- `sum(xs**2)`. -/
def sumSq (xs : List ℝ) : ℝ :=
  (xs.map fun x => x * x).sum

/-- `numpy.linalg.norm(xs, Inf)`: the largest absolute entry. -/
def infNorm (xs : List ℝ) : ℝ :=
  (xs.map fun x => |x|).foldr max 0

noncomputable section

/-- `numpy.linalg.norm(xs)`: the Euclidean norm. -/
def norm2 (xs : List ℝ) : ℝ :=
  Real.sqrt (sumSq xs)

/-- Embedding of `cpf_p` (ContinuationPowerFlow.py lines 140-166): value of the
CPF parameterization function.  `parameterization` is the Python integer mode.
Mode 1 is natural, mode 2 arc length, mode 3 pseudo arc length; any other
value falls through every branch and the `return P` raises, hence `none`.
In mode 3 the source reads `z[r_[pv, pq, nb+pq, 2*nb+1]]`, embedded with the
bounds-checked `selOpt`. -/
def cpf_p (parameterization : ℤ) (step : ℝ) (z : List ℝ) (V : List ℂ)
    (lam : ℝ) (Vprv : List ℂ) (lamprv : ℝ) (pv pq pvpq : List ℕ) : Option ℝ :=
  if parameterization = 1 then
    -- natural: P = lam - lamprv - step  (sign flipped when lam < lamprv)
    some (if lamprv ≤ lam then lam - lamprv - step else lamprv - lam - step)
  else if parameterization = 2 then
    -- arc length
    let Va := V.map Complex.arg
    let Vm := V.map Complex.abs
    let Vaprv := Vprv.map Complex.arg
    let Vmprv := Vprv.map Complex.abs
    let a := sel Va pvpq ++ sel Vm pq ++ [lam]
    let b := sel Vaprv pvpq ++ sel Vmprv pq ++ [lamprv]
    some (sumSq (listSub a b) - step ^ 2)
  else if parameterization = 3 then
    -- pseudo arc length
    let nb := V.length
    let Va := V.map Complex.arg
    let Vm := V.map Complex.abs
    let Vaprv := Vprv.map Complex.arg
    let Vmprv := Vprv.map Complex.abs
    match selOpt z (pv ++ pq ++ pq.map (fun i => nb + i) ++ [2 * nb + 1]) with
    | none => none
    | some a =>
      let b := sel Va pvpq ++ sel Vm pq ++ [lam]
      let c := sel Vaprv pvpq ++ sel Vmprv pq ++ [lamprv]
      some (dot a (listSub b c) - step)
  else
    none

/-- Embedding of `cpf_p_jac` (lines 207-232): partial derivatives
`(dP_dV, dP_dlam)` of the parameterization function.  In mode 3 the source
evaluates `dP_dV = z[r_[pv, pq, nb + pq]]` and then
`dP_dlam = z[2 * nb + 1][0]`; numpy bounds-checks the read `z[2*nb+1]`
(raising when `z` has the driver's length `2*nb+1`), and even when that read
is in bounds it yields a numpy scalar whose trailing `[0]` subscript raises,
so the mode-3 branch can never produce a value. -/
def cpf_p_jac (parameterization : ℤ) (z : List ℝ) (V : List ℂ) (lam : ℝ)
    (Vprv : List ℂ) (lamprv : ℝ) (pv pq pvpq : List ℕ) :
    Option (List ℝ × ℝ) :=
  if parameterization = 1 then
    -- natural
    some (List.replicate (pv.length + 2 * pq.length) 0,
          if lamprv ≤ lam then 1 else -1)
  else if parameterization = 2 then
    -- arc length
    let Va := V.map Complex.arg
    let Vm := V.map Complex.abs
    let Vaprv := Vprv.map Complex.arg
    let Vmprv := Vprv.map Complex.abs
    some (((listSub (sel Va pvpq ++ sel Vm pq)
                    (sel Vaprv pvpq ++ sel Vmprv pq)).map fun d => 2 * d),
          if lam = lamprv then 1 else 2 * (lam - lamprv))
  else if parameterization = 3 then
    -- pseudo arc length
    let nb := V.length
    match selOpt z (pv ++ pq ++ pq.map (fun i => nb + i)) with
    | none => none
    | some _dP_dV => (z.get? (2 * nb + 1)).bind fun _ => none
  else
    none

end

/-- numpy fancy-index assignment `xs[idx] = vals` (numpy requires
`len(vals) = len(idx)`; with duplicate indices the last write wins, exactly as
a left fold of `List.set` does). -/
def scatter (xs : List ℝ) (idx : List ℕ) (vals : List ℝ) : List ℝ :=
  (idx.zip vals).foldl (fun acc p => acc.set p.1 p.2) xs

noncomputable section

/-- Embedding of `cpf_predictor` (lines 416-495).  The sparse augmented solve
`spsolve(J, s)` is abstracted as the extra input `tangent` (the raw tangent
vector it returns); the augmented matrix assembly feeds only that solve, and
of its ingredients only `cpf_p_jac` can raise, so the embedding evaluates
`cpf_p_jac` first (propagating its failure) and then uses `tangent` in place
of the solve result.  Everything after the solve — the in-place scatter into
`z`, the normalization, and the trial-point extrapolation — is embedded
verbatim. -/
def cpf_predictor (V : List ℂ) (lam : ℝ) (Ybus : List (List ℂ))
    (Sxfr : List ℂ) (pv pq : List ℕ) (step : ℝ) (z : List ℝ)
    (Vprv : List ℂ) (lamprv : ℝ) (parameterization : ℤ)
    (tangent : List ℝ) : Option (List ℂ × ℝ × List ℝ) :=
  let nb := V.length
  let pvpq := pv ++ pq
  match cpf_p_jac parameterization z V lam Vprv lamprv pv pq pvpq with
  | none => none
  | some _dPjac =>
    let Vaprv := V.map Complex.arg
    let Vmprv := V.map Complex.abs
    let z1 := scatter z (pvpq ++ pq.map (fun i => nb + i) ++ [2 * nb]) tangent
    let z2 := z1.map fun x => x / norm2 z1
    let Va0 := scatter Vaprv pvpq
      (List.zipWith (fun a t => a + step * t) (sel Vaprv pvpq) (sel z2 pvpq))
    let Vm0 := scatter Vmprv pq
      (List.zipWith (fun m t => m + step * t) (sel Vmprv pq)
        (sel z2 (pq.map (fun i => nb + i))))
    let lam0 := lam + step * z2.getD (2 * nb) 0
    let V0 := List.zipWith (fun m a => (m : ℂ) * Complex.exp (Complex.I * (a : ℂ))) Vm0 Va0
    some (V0, lam0, z2)

end

/-- Python list/numpy slice `xs[a:b]` (for `0 <= a <= b <= len`). -/
def takeSlice (xs : List ℝ) (a b : ℕ) : List ℝ :=
  (xs.drop a).take (b - a)

noncomputable section

/-- Matrix-vector product `Ybus * V` (rows of `Ybus` against `V`). -/
def matvec (A : List (List ℂ)) (x : List ℂ) : List ℂ :=
  A.map fun row => (List.zipWith (fun a b => a * b) row x).sum

/-- `mis = V * conj(Ybus * V) - Sbus - lam * Sxfr` (lines 323 and 385). -/
def mismatch (Ybus : List (List ℂ)) (Sbus Sxfr : List ℂ) (V : List ℂ)
    (lam : ℝ) : List ℂ :=
  List.zipWith (fun a b => a - b)
    (List.zipWith (fun a b => a - b)
      (List.zipWith (fun vi ii => vi * (starRingEnd ℂ) ii) V (matvec Ybus V))
      Sbus)
    (Sxfr.map fun s => (lam : ℂ) * s)

/-- The mismatch part of the augmented residual in its initial-evaluation
shape (lines 324-325): `F = r_[mis[pvpq].real, mis[pq].imag]`. -/
def corrF0 (Ybus : List (List ℂ)) (Sbus Sxfr : List ℂ) (V : List ℂ) (lam : ℝ)
    (pq pvpq : List ℕ) : List ℝ :=
  let mis := mismatch Ybus Sbus Sxfr V lam
  sel (mis.map Complex.re) pvpq ++ sel (mis.map Complex.im) pq

/-- The mismatch part of the augmented residual in its in-loop shape
(lines 386-388): `F = r_[mis[pv].real, mis[pq].real, mis[pq].imag]`. -/
def corrFloop (Ybus : List (List ℂ)) (Sbus Sxfr : List ℂ) (V : List ℂ)
    (lam : ℝ) (pv pq : List ℕ) : List ℝ :=
  let mis := mismatch Ybus Sbus Sxfr V lam
  sel (mis.map Complex.re) pv ++ sel (mis.map Complex.re) pq
    ++ sel (mis.map Complex.im) pq

/-- One Newton update of the corrector state (lines 350-382): apply the
voltage corrections `Va[pv] += dx[j1:j2]`, `Va[pq] += dx[j3:j4]`,
`Vm[pq] += dx[j5:j6]` (numpy skips the scatter when the index set is empty,
which a scatter over an empty index list also does), rebuild
`V = Vm * exp(1j * Va)`, renormalize `Vm = abs(V); Va = angle(V)`, and update
`lam += dx[j7:j8][0]`.  `dx` stands for the value of `-spsolve(J, F)`; in the
source it always has length `npv + 2*npq + 1` (the augmented system's size),
so the final window `dx[j7:j8][0]` is the singleton slice at `j7`, embedded
with `getD`.  Returns `(Va, Vm, V, lam)` as used by the next iteration. -/
def corrUpdate (pv pq : List ℕ) (dx : List ℝ)
    (Va Vm : List ℝ) (V : List ℂ) (lam : ℝ) :
    List ℝ × List ℝ × List ℂ × ℝ :=
  let npv := pv.length
  let npq := pq.length
  let j2 := npv
  let j4 := j2 + npq
  let j6 := j4 + npq
  let Va1 := scatter Va pv
    (List.zipWith (fun a d => a + d) (sel Va pv) (takeSlice dx 0 j2))
  let Va2 := scatter Va1 pq
    (List.zipWith (fun a d => a + d) (sel Va1 pq) (takeSlice dx j2 j4))
  let Vm1 := scatter Vm pq
    (List.zipWith (fun m d => m + d) (sel Vm pq) (takeSlice dx j4 j6))
  let V1 := List.zipWith (fun m a => (m : ℂ) * Complex.exp (Complex.I * (a : ℝ))) Vm1 Va2
  let Vm2 := V1.map Complex.abs
  let Va3 := V1.map Complex.arg
  let lam1 := lam + (takeSlice dx j6 (j6 + 1)).getD 0 0
  (Va3, Vm2, V1, lam1)

/-- The Newton loop of `cpf_corrector` (lines 346-407), with the iteration
count driven by the remaining fuel `max_it - i`.  The augmented linear solve
is abstracted: `dxO k` stands for the value of `dx = -spsolve(J, F)` at
iteration `k`.  The state update is `corrUpdate`; the residual re-evaluation
and the convergence test are embedded verbatim; the states where `cpf_p`
raises propagate as `none`. -/
def cpf_corrector_go (Ybus : List (List ℂ)) (Sbus Sxfr : List ℂ)
    (pv pq : List ℕ) (Vprv : List ℂ) (lamprv : ℝ) (z : List ℝ) (step : ℝ)
    (parameterization : ℤ) (tol : ℝ) (dxO : ℕ → List ℝ) :
    ℕ → ℕ → List ℝ → List ℝ → List ℂ → ℝ → ℝ →
    Option (List ℂ × Bool × ℕ × ℝ × ℝ)
  | 0, i, _Va, _Vm, V, lam, normF => some (V, false, i, lam, normF)
  | fuel + 1, i, Va, Vm, V, lam, _normF =>
    let i1 := i + 1
    let pvpq := pv ++ pq
    match corrUpdate pv pq (dxO i1) Va Vm V lam with
    | (Va3, Vm2, V1, lam1) =>
      match cpf_p parameterization step z V1 lam1 Vprv lamprv pv pq pvpq with
      | none => none
      | some P =>
        let normF1 := infNorm (corrFloop Ybus Sbus Sxfr V1 lam1 pv pq ++ [P])
        if normF1 < tol then some (V1, true, i1, lam1, normF1)
        else cpf_corrector_go Ybus Sbus Sxfr pv pq Vprv lamprv z step
          parameterization tol dxO fuel i1 Va3 Vm2 V1 lam1 normF1

/-- Embedding of `cpf_corrector` (lines 235-413): evaluate the augmented
residual at the trial point `(V0, lam0)`; if its infinity norm is already
below `tol` return converged with zero iterations, otherwise run the Newton
loop for at most `max_it` iterations. -/
def cpf_corrector (Ybus : List (List ℂ)) (Sbus : List ℂ) (V0 : List ℂ)
    (pv pq : List ℕ) (lam0 : ℝ) (Sxfr : List ℂ) (Vprv : List ℂ)
    (lamprv : ℝ) (z : List ℝ) (step : ℝ) (parameterization : ℤ) (tol : ℝ)
    (max_it : ℕ) (dxO : ℕ → List ℝ) : Option (List ℂ × Bool × ℕ × ℝ × ℝ) :=
  let Va := V0.map Complex.arg
  let Vm := V0.map Complex.abs
  let pvpq := pv ++ pq
  match cpf_p parameterization step z V0 lam0 Vprv lamprv pv pq pvpq with
  | none => none
  | some P =>
    let F := corrF0 Ybus Sbus Sxfr V0 lam0 pq pvpq ++ [P]
    let normF := infNorm F
    if normF < tol then some (V0, true, 0, lam0, normF)
    else cpf_corrector_go Ybus Sbus Sxfr pv pq Vprv lamprv z step
      parameterization tol dxO max_it 0 Va Vm V0 lam0 normF

/-- The local prediction error of the driver (line 899):
`cpf_error = linalg.norm(r_[angle(V[pq]), abs(V[pvpq]), lam]
           - r_[angle(V0[pq]), abs(V0[pvpq]), lam0], Inf)`.
Note the source takes the angles at the PQ buses only and the magnitudes at
all non-reference (PV and PQ) buses. -/
def cpf_error_fn (V V0 : List ℂ) (lam lam0 : ℝ) (pv pq : List ℕ) : ℝ :=
  let pvpq := pv ++ pq
  infNorm (listSub
    (sel (V.map Complex.arg) pq ++ sel (V.map Complex.abs) pvpq ++ [lam])
    (sel (V0.map Complex.arg) pq ++ sel (V0.map Complex.abs) pvpq ++ [lam0]))

/-- The prediction error as the claim's words describe it, for comparison
with `cpf_error_fn`: restricted to "(angle at non-reference buses, magnitude
at non-reference+PQ buses, λ)" — angles over all of pvpq rather than only
pq (the magnitude slots cover the non-reference buses in both readings). -/
def cpf_error_claim (V V0 : List ℂ) (lam lam0 : ℝ) (pv pq : List ℕ) : ℝ :=
  let pvpq := pv ++ pq
  infNorm (listSub
    (sel (V.map Complex.arg) pvpq ++ sel (V.map Complex.abs) pvpq ++ [lam])
    (sel (V0.map Complex.arg) pvpq ++ sel (V0.map Complex.abs) pvpq ++ [lam0]))

/-- The adaptive step-size update of the driver (lines 897-911): multiply the
step by `error_tol / cpf_error` and clamp — cap at `step_max` in the growth
branch, floor at `step_min` in the shrink branch. -/
def adapt_step_code (error_tol step_min step_max : ℝ) (V V0 : List ℂ)
    (lam lam0 : ℝ) (pv pq : List ℕ) (step : ℝ) : ℝ :=
  let cpf_error := cpf_error_fn V V0 lam lam0 pv pq
  if cpf_error < error_tol then
    let s := step * error_tol / cpf_error
    if s > step_max then step_max else s
  else
    let s := step * error_tol / cpf_error
    if s < step_min then step_min else s

end

/-- The `stop_at` argument of `runcpf2`: `type(stop_at) is str` in the source
distinguishes a named stop mode from a numeric lambda target. -/
inductive StopAt where
  | str (s : String)
  | num (x : ℚ)
deriving DecidableEq

/-- The configuration scalars of a run (exact rationals stand for the Python
floats; `1e-8` becomes `1/100000000`). -/
structure CpfCfg where
  step_min : ℚ
  step_max : ℚ
  error_tol : ℚ
  stop_at : StopAt
deriving DecidableEq

/-- Driver-loop state.  `steps_log` is a ghost field recording the `step`
value passed to each predictor/corrector pair, newest last; it does not
influence the control flow.  `normF` and `success` hold the outputs of the
most recent corrector call (unbound in Python before the first iteration;
the loop always runs at least once, so the initial values below are never
returned by a run with fuel). -/
structure DriverSt (α : Type) where
  V : α
  lam : ℚ
  V_prev : α
  lam_prev : ℚ
  z : List ℚ
  step : ℚ
  order : ℤ
  adapt : Bool
  cont_steps : ℕ
  Vser : List α
  Lser : List ℚ
  normF : ℚ
  success : Bool
  steps_log : List ℚ
deriving DecidableEq

/-- Outcome of the driver loop: normal return of
`(Voltage_series, Lambda_series, normF, success)` (line 913) with the final
state attached, an escaped exception, or fuel exhaustion with the loop still
continuing. -/
inductive RunOut (α : Type) where
  | done (Vser : List α) (Lser : List ℚ) (normF : ℚ) (success : Bool)
      (st : DriverSt α)
  | raised (msg : String) (st : DriverSt α)
  | out (st : DriverSt α)
deriving DecidableEq

/-- Numeric oracles standing for one execution trace of the numerical
subroutines, indexed by the value of `cont_steps` at the calling iteration:
`pred k` is the triple `(V0, lam0, z)` returned by `cpf_predictor`, `corr k`
the tuple `(V, success, i, lam, normF)` returned by `cpf_corrector`, and
`err k` the `cpf_error` norm of line 899.  Every theorem below quantifies
over all oracles, hence over every possible execution trace. -/
structure Oracles (α : Type) where
  pred : ℕ → α × ℚ × List ℚ
  corr : ℕ → α × Bool × ℕ × ℚ × ℚ
  err : ℕ → ℚ

/-- The voltage a corrector call returns. -/
def corrV {α : Type} (os : Oracles α) (k : ℕ) : α := (os.corr k).1

/-- The success flag a corrector call returns. -/
def corrSucc {α : Type} (os : Oracles α) (k : ℕ) : Bool := (os.corr k).2.1

/-- The lambda a corrector call returns. -/
def corrLam {α : Type} (os : Oracles α) (k : ℕ) : ℚ := (os.corr k).2.2.2.1

/-- The mismatch norm a corrector call returns. -/
def corrNormF {α : Type} (os : Oracles α) (k : ℕ) : ℚ := (os.corr k).2.2.2.2

/-- The adaptive step-size update (lines 898-911) over exact rationals;
the same formula as `adapt_step_code` with the error supplied directly. -/
def adaptStepQ (error_tol step_min step_max step cpf_error : ℚ) : ℚ :=
  if cpf_error < error_tol then
    let s := step * error_tol / cpf_error
    if s > step_max then step_max else s
  else
    let s := step * error_tol / cpf_error
    if s < step_min then step_min else s

/-- Python's `str.upper()` restricted to the strings compared at
lines 862/873: uppercase every character (the core `String.toUpper` computes
the same map through `String.mapAux`, whose position recursion the kernel
cannot evaluate; this shape is structurally evaluable). -/
def pyUpper (s : String) : String :=
  String.mk (s.data.map Char.toUpper)

/-- The stopping rules (lines 861-895), applied to the post-corrector state:
either the loop goes on (`Sum.inl`, possibly with modified step /
approximation order / adaptation flag), or the run stops or raises
(`Sum.inr`). -/
def applyStopRules {α : Type} (stop_at : StopAt) (st : DriverSt α) :
    DriverSt α ⊕ RunOut α :=
  match stop_at with
  | .str s =>
    if pyUpper s = "FULL" then
      if |st.lam| < 1/100000000 then
        Sum.inr (.done st.Vser st.Lser st.normF st.success st)
      else if st.lam < st.lam_prev ∧ st.lam - st.step < 0 then
        Sum.inl { st with step := st.lam, order := 1, adapt := false }
      else Sum.inl st
    else if pyUpper s = "NOSE" then
      if st.lam < st.lam_prev then
        Sum.inr (.done st.Vser st.Lser st.normF st.success st)
      else Sum.inl st
    else
      Sum.inr (.raised ("Stop point " ++ s ++ " not recognised.") st)
  | .num x =>
    if st.lam < st.lam_prev then
      Sum.inr (.done st.Vser st.Lser st.normF st.success st)
    else if |x - st.lam| < 1/100000000 then
      Sum.inr (.done st.Vser st.Lser st.normF st.success st)
    else if st.lam + st.step > x then
      Sum.inl { st with step := x - st.lam, order := 1, adapt := false }
    else Sum.inl st

/-- The step-adaptation site (line 897): `if adapt_step and continuation`,
reached exactly on the branches where the loop goes on. -/
def applyAdapt {α : Type} (cfg : CpfCfg) (e : ℚ) (st : DriverSt α) :
    DriverSt α :=
  if st.adapt then
    { st with step := adaptStepQ cfg.error_tol cfg.step_min cfg.step_max st.step e }
  else st

/-- One iteration of the `while continuation` loop (lines 832-911): count the
step, call the predictor, save the previous `(V, lam)`, call the corrector;
on corrector failure break with the series accumulated so far and
`success = false`; otherwise store and append the accepted point, then
evaluate the stopping rules and (when still continuing) the adaptation. -/
def driverIter {α : Type} (cfg : CpfCfg) (os : Oracles α) (st : DriverSt α) :
    DriverSt α ⊕ RunOut α :=
  let k := st.cont_steps + 1
  match os.pred k with
  | (_V0, _lam0, z1) =>
    match os.corr k with
    | (V1, succ, _i, lam1, nF) =>
      let st1 := { st with
        cont_steps := k
        V_prev := st.V
        lam_prev := st.lam
        z := z1
        steps_log := st.steps_log ++ [st.step] }
      if ¬ succ then
        Sum.inr (.done st1.Vser st1.Lser nF false
          { st1 with V := V1, lam := lam1, normF := nF, success := false })
      else
        let st2 := { st1 with
          V := V1
          lam := lam1
          normF := nF
          success := true
          Vser := st1.Vser ++ [V1]
          Lser := st1.Lser ++ [lam1] }
        match applyStopRules cfg.stop_at st2 with
        | Sum.inl st3 => Sum.inl (applyAdapt cfg (os.err k) st3)
        | Sum.inr out => Sum.inr out

/-- The fuel-bounded `while continuation` loop. -/
def runLoop {α : Type} (cfg : CpfCfg) (os : Oracles α) :
    ℕ → DriverSt α → RunOut α
  | 0, st => .out st
  | fuel + 1, st =>
    match driverIter cfg os st with
    | Sum.inl st1 => runLoop cfg os fuel st1
    | Sum.inr out => out

/-- Embedding of the control loop of `runcpf2` (lines 806-913): initial state
`lam = 0`, `V_prev = V`, `lam_prev = 0`, `z = zeros(2*nb+1)` with
`z[2*nb] = 1`, empty series, then the loop. -/
def runcpf2 {α : Type} (cfg : CpfCfg) (os : Oracles α) (V : α) (nb : ℕ)
    (step : ℚ) (order : ℤ) (adapt : Bool) (fuel : ℕ) : RunOut α :=
  runLoop cfg os fuel
    { V := V
      lam := 0
      V_prev := V
      lam_prev := 0
      z := (List.replicate (2 * nb + 1) 0).set (2 * nb) 1
      step := step
      order := order
      adapt := adapt
      cont_steps := 0
      Vser := []
      Lser := []
      normF := 0
      success := false
      steps_log := [] }

/-- The ghost step log of a run outcome. -/
def stepsLogOf {α : Type} : RunOut α → List ℚ
  | .done _ _ _ _ st => st.steps_log
  | .raised _ st => st.steps_log
  | .out st => st.steps_log

/-- Concrete configuration for the C2 counterexample run:
`step_min = 1/100`, `step_max = 1`, `error_tol = 1/10`, `stop_at = "FULL"`. -/
def cfgC2 : CpfCfg :=
  { step_min := 1/100
    step_max := 1
    error_tol := 1/10
    stop_at := .str "FULL" }

/-- Concrete oracle trace for the C2 counterexample run: the first corrector
call accepts `lam = 1/2`, the second accepts `lam = 1/1000` (past the nose),
the third fails; the prediction error equals the tolerance so the one
adaptation performed leaves the step unchanged. -/
def osC2 : Oracles ℚ where
  pred := fun _ => (0, 0, [])
  corr := fun k =>
    if k = 1 then (0, true, 5, 1/2, 0)
    else if k = 2 then (0, true, 4, 1/1000, 0)
    else (0, false, 20, 0, 7)
  err := fun _ => 1/10

/-- The driver state a run outcome carries. -/
def stateOf {α : Type} : RunOut α → DriverSt α
  | .done _ _ _ _ st => st
  | .raised _ st => st
  | .out st => st

/-- The message of a raised exception, if the run raised. -/
def raisedMsgOf {α : Type} : RunOut α → Option String
  | .raised msg _ => some msg
  | _ => none

/-- Concrete configuration for the C3 counterexample: an unrecognized stop
string. -/
def cfgC3 : CpfCfg :=
  { step_min := 1/100
    step_max := 1
    error_tol := 1/10
    stop_at := .str "Banana" }

/-- Concrete oracle trace for the C3 counterexample: every corrector call
converges at `lam = 1/2`. -/
def osC3 : Oracles ℚ where
  pred := fun _ => (0, 0, [])
  corr := fun _ => (0, true, 3, 1/2, 0)
  err := fun _ => 1/10

/-- The voltages of the corrector calls `a+1, ..., a+n`, in order. -/
def acceptedV {α : Type} (os : Oracles α) (a : ℕ) : ℕ → List α
  | 0 => []
  | n + 1 => corrV os (a + 1) :: acceptedV os (a + 1) n

/-- The lambdas of the corrector calls `a+1, ..., a+n`, in order. -/
def acceptedLam {α : Type} (os : Oracles α) (a : ℕ) : ℕ → List ℚ
  | 0 => []
  | n + 1 => corrLam os (a + 1) :: acceptedLam os (a + 1) n

/-- The observable return tuple `(Voltage_series, Lambda_series, normF,
success)` of line 913, when the loop returned normally. -/
def doneTuple {α : Type} : RunOut α → Option (List α × List ℚ × ℚ × Bool)
  | .done Vs Ls nF s _ => some (Vs, Ls, nF, s)
  | _ => none

/-- Concrete configuration for the C8 witness run. -/
def cfgC8 : CpfCfg :=
  { step_min := 1/100
    step_max := 1
    error_tol := 1/10
    stop_at := .str "NOSE" }

/-- Concrete oracle trace for the C8 witness run: the first corrector call
accepts `(V, lam) = (7, 1/2)`, the second fails with mismatch norm 5. -/
def osC8 : Oracles ℚ where
  pred := fun _ => (0, 0, [])
  corr := fun k => if k = 1 then (7, true, 3, 1/2, 0) else (9, false, 20, 1/4, 5)
  err := fun _ => 1/10

-- ## Theorems

theorem sel_length (xs : List ℝ) (idx : List ℕ) : (sel xs idx).length = idx.length := by
  simp [sel]

theorem sel_append (xs : List ℝ) (i j : List ℕ) :
    sel xs (i ++ j) = sel xs i ++ sel xs j := by
  simp [sel]

theorem listSub_append {a₁ b₁ : List ℝ} (a₂ b₂ : List ℝ)
    (h : a₁.length = b₁.length) :
    listSub (a₁ ++ a₂) (b₁ ++ b₂) = listSub a₁ b₁ ++ listSub a₂ b₂ := by
  simp [listSub, List.zipWith_append _ _ _ _ _ h]

theorem sumSq_append (a b : List ℝ) : sumSq (a ++ b) = sumSq a + sumSq b := by
  simp [sumSq]

theorem sumSq_nonneg (a : List ℝ) : 0 ≤ sumSq a := by
  induction a with
  | nil => simp [sumSq]
  | cons x xs ih =>
    have hx : 0 ≤ x * x := mul_self_nonneg x
    simpa [sumSq] using add_nonneg hx (by simpa [sumSq] using ih)

theorem selOpt_none_acc (xs : List ℝ) (idx : List ℕ) :
    idx.foldr (fun i acc =>
      match xs.get? i, acc with
      | some v, some l => some (v :: l)
      | _, _ => none) none = none := by
  induction idx with
  | nil => rfl
  | cons i is ih =>
    simp only [List.foldr, ih]
    cases xs.get? i <;> rfl

theorem selOpt_oob (xs : List ℝ) (idx : List ℕ) (j : ℕ) (hj : xs.length ≤ j) :
    selOpt xs (idx ++ [j]) = none := by
  have hget : xs.get? j = none := List.get?_eq_none.mpr hj
  unfold selOpt
  rw [List.foldr_append]
  simp only [List.foldr, hget]
  exact selOpt_none_acc xs idx

/-- C9: in arc-length mode (parameterization = 2), `cpf_p` returns the sum of
squared differences of (angles at non-reference buses, magnitudes at PQ buses,
lambda) versus the previous accepted solution, minus step squared, and
`cpf_p_jac` returns dP_dV = 2 * Delta-state over the same index layout and
dP_dlam = 2 * (lam - lamprv), with the fallback dP_dlam = 1 when
lam = lamprv. -/
theorem cpf_p_arc_length_spec (step : ℝ) (z : List ℝ) (V : List ℂ) (lam : ℝ)
    (Vprv : List ℂ) (lamprv : ℝ) (pv pq pvpq : List ℕ) :
    cpf_p 2 step z V lam Vprv lamprv pv pq pvpq
      = some (sumSq (listSub (sel (V.map Complex.arg) pvpq)
                             (sel (Vprv.map Complex.arg) pvpq))
            + sumSq (listSub (sel (V.map Complex.abs) pq)
                             (sel (Vprv.map Complex.abs) pq))
            + (lam - lamprv) ^ 2 - step ^ 2)
    ∧ cpf_p_jac 2 z V lam Vprv lamprv pv pq pvpq
      = some ((listSub (sel (V.map Complex.arg) pvpq)
                       (sel (Vprv.map Complex.arg) pvpq)).map (fun d => 2 * d)
            ++ (listSub (sel (V.map Complex.abs) pq)
                        (sel (Vprv.map Complex.abs) pq)).map (fun d => 2 * d),
              if lam = lamprv then 1 else 2 * (lam - lamprv)) := by
  have h₁ : (sel (V.map Complex.arg) pvpq).length
      = (sel (Vprv.map Complex.arg) pvpq).length := by
    rw [sel_length, sel_length]
  have h₂ : (sel (V.map Complex.abs) pq).length
      = (sel (Vprv.map Complex.abs) pq).length := by
    rw [sel_length, sel_length]
  constructor
  · show cpf_p 2 step z V lam Vprv lamprv pv pq pvpq = _
    rw [cpf_p]
    norm_num
    rw [listSub_append _ _ h₁, listSub_append _ _ h₂, sumSq_append, sumSq_append]
    have : sumSq (listSub [lam] [lamprv]) = (lam - lamprv) ^ 2 := by
      simp [listSub, sumSq]; ring
    rw [this]
    ring
  · show cpf_p_jac 2 z V lam Vprv lamprv pv pq pvpq = _
    rw [cpf_p_jac]
    norm_num
    rw [listSub_append _ _ h₁, List.map_append]

/-- C10: for every parameterization value outside {1, 2, 3}, `cpf_p` and
`cpf_p_jac` fall through every branch and fail (the Python `return` raises
UnboundLocalError), modelled by `none`. -/
theorem cpf_p_unknown_mode_fails (p : ℤ) (step : ℝ) (z : List ℝ) (V : List ℂ)
    (lam : ℝ) (Vprv : List ℂ) (lamprv : ℝ) (pv pq pvpq : List ℕ)
    (h1 : p ≠ 1) (h2 : p ≠ 2) (h3 : p ≠ 3) :
    cpf_p p step z V lam Vprv lamprv pv pq pvpq = none
    ∧ cpf_p_jac p z V lam Vprv lamprv pv pq pvpq = none := by
  constructor
  · rw [cpf_p]
    simp [h1, h2, h3]
  · rw [cpf_p_jac]
    simp [h1, h2, h3]

theorem cpf_p_unknown_mode_fails_witness :
    (4 : ℤ) ≠ 1 ∧ (4 : ℤ) ≠ 2 ∧ (4 : ℤ) ≠ 3 ∧
    (cpf_p 4 0 [0, 0, 1] [1] 0 [1] 0 [] [0] [0] = none
      ∧ cpf_p_jac 4 [0, 0, 1] [1] 0 [1] 0 [] [0] [0] = none) :=
  ⟨by decide, by decide, by decide,
    cpf_p_unknown_mode_fails 4 0 [0, 0, 1] [1] 0 [1] 0 [] [0] [0]
      (by decide) (by decide) (by decide)⟩

/-- Helper: in mode 3 `cpf_p` reads `z[2*nb + 1]`, out of bounds whenever `z`
has the driver's length `2*nb + 1`, so the call raises (`none`). -/
theorem cpf_p_mode3_oob (step : ℝ) (z : List ℝ) (V : List ℂ)
    (lam : ℝ) (Vprv : List ℂ) (lamprv : ℝ) (pv pq pvpq : List ℕ)
    (hz : z.length ≤ 2 * V.length + 1) :
    cpf_p 3 step z V lam Vprv lamprv pv pq pvpq = none := by
  rw [cpf_p]
  norm_num
  have hassoc : pv ++ (pq ++ (pq.map (fun i => V.length + i) ++ [2 * V.length + 1]))
      = (pv ++ pq ++ pq.map (fun i => V.length + i)) ++ [2 * V.length + 1] := by
    simp [List.append_assoc]
  rw [hassoc, selOpt_oob z _ _ hz]

/-- Helper: the mode-3 branch of `cpf_p_jac` never returns (the scalar
subscript `z[2*nb+1][0]` raises even when the read is in bounds). -/
theorem cpf_p_jac_mode3_none (z : List ℝ) (V : List ℂ) (lam : ℝ)
    (Vprv : List ℂ) (lamprv : ℝ) (pv pq pvpq : List ℕ) :
    cpf_p_jac 3 z V lam Vprv lamprv pv pq pvpq = none := by
  rw [cpf_p_jac]
  norm_num
  cases hsel : selOpt z (pv ++ (pq ++ pq.map (fun i => V.length + i))) with
  | none => simp [hsel]
  | some a => simp [hsel]

/-- C1: in pseudo-arc-length mode (parameterization = 3), with the tangent
vector `z` of length `2 * nb + 1` exactly as the driver builds it and every
predictor call returns it, both `cpf_p` and `cpf_p_jac` read `z[2 * nb + 1]`,
one past the end of `z` (the lambda slot actually lives at index `2 * nb`, the
index the predictor itself uses), so both calls raise IndexError instead of
returning the documented value: the embedding yields `none`. -/
theorem cpf_p_pseudo_arc_raises (step : ℝ) (z : List ℝ) (V : List ℂ)
    (lam : ℝ) (Vprv : List ℂ) (lamprv : ℝ) (pv pq pvpq : List ℕ)
    (hz : z.length = 2 * V.length + 1) :
    cpf_p 3 step z V lam Vprv lamprv pv pq pvpq = none
    ∧ cpf_p_jac 3 z V lam Vprv lamprv pv pq pvpq = none :=
  ⟨cpf_p_mode3_oob step z V lam Vprv lamprv pv pq pvpq (le_of_eq hz),
   cpf_p_jac_mode3_none z V lam Vprv lamprv pv pq pvpq⟩

theorem cpf_p_pseudo_arc_raises_witness :
    ([0, 0, 1] : List ℝ).length = 2 * ([1] : List ℂ).length + 1 ∧
    (cpf_p 3 (1/10) [0, 0, 1] [1] (1/10) [1] 0 [] [0] [0] = none
      ∧ cpf_p_jac 3 [0, 0, 1] [1] (1/10) [1] 0 [] [0] [0] = none) :=
  ⟨rfl, cpf_p_pseudo_arc_raises (1/10) [0, 0, 1] [1] (1/10) [1] 0 [] [0] [0] rfl⟩

theorem scatter_foldl_length (l : List (ℕ × ℝ)) (xs : List ℝ) :
    (l.foldl (fun acc p => acc.set p.1 p.2) xs).length = xs.length := by
  induction l generalizing xs with
  | nil => rfl
  | cons p ps ih => simp [List.foldl, ih]

theorem scatter_length (xs : List ℝ) (idx : List ℕ) (vals : List ℝ) :
    (scatter xs idx vals).length = xs.length :=
  scatter_foldl_length _ xs

theorem scatter_get_notMem (xs : List ℝ) (idx : List ℕ) (vals : List ℝ)
    (i : ℕ) (hi : i ∉ idx) : (scatter xs idx vals).get? i = xs.get? i := by
  induction idx generalizing xs vals with
  | nil => rfl
  | cons j js ih =>
    cases vals with
    | nil => rfl
    | cons v vs =>
      have hij : i ≠ j := fun h => hi (h ▸ List.mem_cons_self j js)
      have hjs : i ∉ js := fun h => hi (List.mem_cons_of_mem j h)
      show ((js.zip vs).foldl (fun acc p => acc.set p.1 p.2) (xs.set j v)).get? i = _
      rw [show ((js.zip vs).foldl (fun acc p => acc.set p.1 p.2) (xs.set j v))
            = scatter (xs.set j v) js vs from rfl, ih _ _ hjs,
          List.get?_set_ne v xs (Ne.symm hij)]

theorem sel_scatter_self (xs : List ℝ) (idx : List ℕ) (vals : List ℝ)
    (hnd : idx.Nodup) (hb : ∀ i ∈ idx, i < xs.length)
    (hlen : vals.length = idx.length) :
    sel (scatter xs idx vals) idx = vals := by
  induction idx generalizing xs vals with
  | nil => cases vals with
    | nil => rfl
    | cons v vs => simp at hlen
  | cons j js ih =>
    cases vals with
    | nil => simp at hlen
    | cons v vs =>
      have hnd' := List.nodup_cons.mp hnd
      have hscat : scatter xs (j :: js) (v :: vs) = scatter (xs.set j v) js vs := rfl
      have hjlt : j < (xs.set j v).length := by
        rw [List.length_set]; exact hb j (List.mem_cons_self j js)
      rw [hscat]
      show (scatter (xs.set j v) js vs).getD j 0 :: sel (scatter (xs.set j v) js vs) js
          = v :: vs
      congr 1
      · have hg : (scatter (xs.set j v) js vs).get? j = (xs.set j v).get? j :=
          scatter_get_notMem _ _ _ _ hnd'.1
        have hv : (xs.set j v).get? j = some v :=
          List.get?_set_eq_of_lt v (hb j (List.mem_cons_self j js))
        rw [List.getD_eq_getElem?_getD, ← List.get?_eq_getElem?, hg, hv]
        rfl
      · exact ih (xs.set j v) vs hnd'.2
          (fun i hi => by rw [List.length_set]; exact hb i (List.mem_cons_of_mem j hi))
          (by simpa using hlen)

theorem sumSq_div (xs : List ℝ) (c : ℝ) :
    sumSq (xs.map fun x => x / c) = sumSq xs / c ^ 2 := by
  induction xs with
  | nil => simp [sumSq]
  | cons x l ih =>
    simp only [List.map_cons, sumSq, List.sum_cons] at *
    rw [ih]
    field_simp
    ring

theorem norm2_normalize (xs : List ℝ) (h : 0 < sumSq xs) :
    norm2 (xs.map fun x => x / norm2 xs) = 1 := by
  unfold norm2
  rw [sumSq_div, Real.sq_sqrt (le_of_lt h), div_self (ne_of_gt h), Real.sqrt_one]

/-- C5 counterexample: a `cpf_predictor` call in pseudo-arc-length mode
(parameterization = 3) with the driver-shaped tangent vector does not return
at all — `cpf_p_jac` raises on the read `z[2*nb+1][0]` — so the claim
"every call to cpf_predictor returns a tangent vector of norm 1 and the
extrapolated trial point" fails as stated. -/
theorem cpf_predictor_mode3_raises_cex :
    cpf_predictor [1] 0 [[1]] [0] [] [0] (1/10) [0, 0, 1] [1] 0 3 [0, 0, 1]
      = none := by
  simp [cpf_predictor, cpf_p_jac, selOpt]

/-- C5 (amended): every `cpf_predictor` call in which the
parameterization-gradient evaluation succeeds (modes 1 and 2; mode 3 always
raises, see `cpf_predictor_mode3_raises_cex`) and whose scattered raw tangent
is nonzero returns a tangent `z` of unit Euclidean norm, and the returned
trial point advances the current solution by `step` along that tangent:
`Va0[pvpq] = Va[pvpq] + step * z[pvpq]`, `Vm0[pq] = Vm[pq] + step * z[nb+pq]`,
`lam0 = lam + step * z[2*nb]`, and `V0 = Vm0 * exp(1j * Va0)`. -/
theorem cpf_predictor_unit_tangent (V : List ℂ) (lam : ℝ)
    (Ybus : List (List ℂ)) (Sxfr : List ℂ) (pv pq : List ℕ) (step : ℝ)
    (z : List ℝ) (Vprv : List ℂ) (lamprv : ℝ) (parameterization : ℤ)
    (tangent : List ℝ)
    (hjac : cpf_p_jac parameterization z V lam Vprv lamprv pv pq (pv ++ pq) ≠ none)
    (hnz : 0 < sumSq (scatter z
      ((pv ++ pq) ++ pq.map (fun i => V.length + i) ++ [2 * V.length]) tangent))
    (hnd : (pv ++ pq).Nodup)
    (hb : ∀ i ∈ pv ++ pq, i < V.length) :
    ∃ (Va0 Vm0 : List ℝ) (lam0 : ℝ) (z2 : List ℝ),
      cpf_predictor V lam Ybus Sxfr pv pq step z Vprv lamprv parameterization tangent
        = some (List.zipWith (fun m a => (m : ℂ) * Complex.exp (Complex.I * (a : ℂ))) Vm0 Va0,
                lam0, z2)
      ∧ norm2 z2 = 1
      ∧ sel Va0 (pv ++ pq)
          = List.zipWith (fun a t => a + step * t)
              (sel (V.map Complex.arg) (pv ++ pq)) (sel z2 (pv ++ pq))
      ∧ sel Vm0 pq
          = List.zipWith (fun m t => m + step * t)
              (sel (V.map Complex.abs) pq) (sel z2 (pq.map (fun i => V.length + i)))
      ∧ lam0 = lam + step * z2.getD (2 * V.length) 0 := by
  obtain ⟨g, hg⟩ : ∃ g,
      cpf_p_jac parameterization z V lam Vprv lamprv pv pq (pv ++ pq) = some g := by
    cases h : cpf_p_jac parameterization z V lam Vprv lamprv pv pq (pv ++ pq) with
    | none => exact absurd h hjac
    | some g => exact ⟨g, rfl⟩
  simp only [cpf_predictor, hg]
  refine ⟨_, _, _, _, rfl, ?_, ?_, ?_, rfl⟩
  · exact norm2_normalize _ hnz
  · apply sel_scatter_self _ _ _ hnd
    · intro i hi
      rw [List.length_map]
      exact hb i hi
    · simp [sel_length]
  · apply sel_scatter_self _ _ _ ((List.nodup_append.mp hnd).2.1)
    · intro i hi
      rw [List.length_map]
      exact hb i (List.mem_append_right pv hi)
    · simp [sel_length]

theorem cpf_predictor_unit_tangent_witness :
    ∃ (Va0 Vm0 : List ℝ) (lam0 : ℝ) (z2 : List ℝ),
      cpf_predictor [1] 0 [[1]] [0] [] [0] (1/10) [0, 0, 1] [1] 0 1 [0, 0, 1]
        = some (List.zipWith (fun m a => (m : ℂ) * Complex.exp (Complex.I * (a : ℂ))) Vm0 Va0,
                lam0, z2)
      ∧ norm2 z2 = 1
      ∧ sel Va0 ([] ++ [0])
          = List.zipWith (fun a t => a + (1/10 : ℝ) * t)
              (sel (([1] : List ℂ).map Complex.arg) ([] ++ [0])) (sel z2 ([] ++ [0]))
      ∧ sel Vm0 [0]
          = List.zipWith (fun m t => m + (1/10 : ℝ) * t)
              (sel (([1] : List ℂ).map Complex.abs) [0])
              (sel z2 ([0].map (fun i => ([1] : List ℂ).length + i)))
      ∧ lam0 = 0 + (1/10 : ℝ) * z2.getD (2 * ([1] : List ℂ).length) 0 :=
  cpf_predictor_unit_tangent [1] 0 [[1]] [0] [] [0] (1/10) [0, 0, 1] [1] 0 1 [0, 0, 1]
    (by simp [cpf_p_jac])
    (by norm_num [scatter, sumSq])
    (by simp)
    (by simp)

/-- C6: if `cpf_corrector` is called with a trial point whose augmented
mismatch (power mismatch at non-reference buses / PQ buses plus the
parameterization residual P) already has infinity norm strictly below `tol`,
it returns converged, iteration count 0, and the input V0 and lam0
unchanged (with that norm as the reported `normF`). -/
theorem cpf_corrector_converged_at_start (Ybus : List (List ℂ))
    (Sbus V0 : List ℂ) (pv pq : List ℕ) (lam0 : ℝ) (Sxfr Vprv : List ℂ)
    (lamprv : ℝ) (z : List ℝ) (step : ℝ) (parameterization : ℤ) (tol : ℝ)
    (max_it : ℕ) (dxO : ℕ → List ℝ) (P : ℝ)
    (hP : cpf_p parameterization step z V0 lam0 Vprv lamprv pv pq (pv ++ pq)
      = some P)
    (hlt : infNorm (corrF0 Ybus Sbus Sxfr V0 lam0 pq (pv ++ pq) ++ [P]) < tol) :
    cpf_corrector Ybus Sbus V0 pv pq lam0 Sxfr Vprv lamprv z step
      parameterization tol max_it dxO
      = some (V0, true, 0, lam0,
          infNorm (corrF0 Ybus Sbus Sxfr V0 lam0 pq (pv ++ pq) ++ [P])) := by
  simp only [cpf_corrector, hP]
  rw [if_pos hlt]

theorem cpf_corrector_converged_at_start_witness :
    cpf_corrector [[1]] [1] [1] [] [0] 0 [0] [1] 0 [0, 0, 1] 0 1 (1/1000) 20
        (fun _ => [0, 0, 0])
      = some ([1], true, 0, 0,
          infNorm (corrF0 [[1]] [1] [0] [1] 0 [0] ([] ++ [0]) ++ [0])) :=
  cpf_corrector_converged_at_start [[1]] [1] [1] [] [0] 0 [0] [1] 0 [0, 0, 1]
    0 1 (1/1000) 20 (fun _ => [0, 0, 0]) 0
    (by norm_num [cpf_p])
    (by norm_num [corrF0, mismatch, matvec, sel, infNorm])

/-- C7 counterexample: in pseudo-arc-length mode the corrector does not
return at all — its very first `cpf_p` evaluation reads past the end of the
tangent vector — so "for every input cpf_corrector ... always returns" fails
as stated. -/
theorem cpf_corrector_mode3_raises_cex :
    cpf_corrector [[1]] [1] [1] [] [0] (1/10) [0] [1] 0 [0, 0, 1] (1/10) 3
        (1/1000) 20 (fun _ => [0, 0, 0])
      = none := by
  have h3 : cpf_p 3 (1/10) [0, 0, 1] [1] (1/10) [1] 0 [] [0] ([] ++ [0]) = none :=
    cpf_p_mode3_oob (1/10) [0, 0, 1] [1] (1/10) [1] 0 [] [0] ([] ++ [0]) (by norm_num)
  simp only [cpf_corrector, h3]

theorem corrF0_eq_corrFloop (Ybus : List (List ℂ)) (Sbus Sxfr : List ℂ)
    (V : List ℂ) (lam : ℝ) (pv pq : List ℕ) :
    corrF0 Ybus Sbus Sxfr V lam pq (pv ++ pq)
      = corrFloop Ybus Sbus Sxfr V lam pv pq := by
  simp [corrF0, corrFloop, sel_append, List.append_assoc]

theorem cpf_p_some_of_mode12 (p : ℤ) (step : ℝ) (z : List ℝ) (V : List ℂ)
    (lam : ℝ) (Vprv : List ℂ) (lamprv : ℝ) (pv pq pvpq : List ℕ)
    (hp : p = 1 ∨ p = 2) :
    ∃ P, cpf_p p step z V lam Vprv lamprv pv pq pvpq = some P := by
  rcases hp with h | h <;> subst h
  · exact Option.isSome_iff_exists.mp (by rw [cpf_p]; norm_num)
  · exact Option.isSome_iff_exists.mp (by rw [cpf_p]; norm_num)

theorem cpf_corrector_go_spec (Ybus : List (List ℂ)) (Sbus Sxfr : List ℂ)
    (pv pq : List ℕ) (Vprv : List ℂ) (lamprv : ℝ) (z : List ℝ) (step : ℝ)
    (p : ℤ) (tol : ℝ) (dxO : ℕ → List ℝ) (hp : p = 1 ∨ p = 2) :
    ∀ (fuel i : ℕ) (Va Vm : List ℝ) (V : List ℂ) (lam normF : ℝ),
      ¬ normF < tol →
      (∃ P0, cpf_p p step z V lam Vprv lamprv pv pq (pv ++ pq) = some P0
        ∧ normF = infNorm (corrFloop Ybus Sbus Sxfr V lam pv pq ++ [P0])) →
      ∃ (V1 : List ℂ) (conv : Bool) (i1 : ℕ) (lam1 nF : ℝ),
        cpf_corrector_go Ybus Sbus Sxfr pv pq Vprv lamprv z step p tol dxO
            fuel i Va Vm V lam normF = some (V1, conv, i1, lam1, nF)
        ∧ i ≤ i1 ∧ i1 ≤ i + fuel
        ∧ (conv = true ↔ nF < tol)
        ∧ (conv = false → i1 = i + fuel)
        ∧ ∃ P1, cpf_p p step z V1 lam1 Vprv lamprv pv pq (pv ++ pq) = some P1
            ∧ nF = infNorm (corrFloop Ybus Sbus Sxfr V1 lam1 pv pq ++ [P1]) := by
  intro fuel
  induction fuel with
  | zero =>
    intro i Va Vm V lam normF hnF hinv
    obtain ⟨P0, hP0, hn⟩ := hinv
    exact ⟨V, false, i, lam, normF, rfl, le_refl i, by omega,
      by simp [hnF], fun _ => by omega, P0, hP0, hn⟩
  | succ fuel ih =>
    intro i Va Vm V lam normF hnF _hinv
    rcases hupd : corrUpdate pv pq (dxO (i + 1)) Va Vm V lam with ⟨Va3, Vm2, V1, lam1⟩
    obtain ⟨P1, hP1⟩ := cpf_p_some_of_mode12 p step z V1 lam1 Vprv lamprv pv pq (pv ++ pq) hp
    simp only [cpf_corrector_go, hupd, hP1]
    by_cases hlt : infNorm (corrFloop Ybus Sbus Sxfr V1 lam1 pv pq ++ [P1]) < tol
    · rw [if_pos hlt]
      exact ⟨V1, true, i + 1, lam1, _, rfl, by omega, by omega,
        by simp [hlt], by simp, P1, hP1, rfl⟩
    · rw [if_neg hlt]
      obtain ⟨V2, conv, i2, lam2, nF, hgo, h1, h2, h3, h4, hP⟩ :=
        ih (i + 1) Va3 Vm2 V1 lam1 _ hlt ⟨P1, hP1, rfl⟩
      exact ⟨V2, conv, i2, lam2, nF, hgo, by omega, by omega, h3,
        fun h => by have := h4 h; omega, hP⟩

/-- C7 (amended): for every input on which the parameterization residual can
be evaluated — natural or arc-length mode; pseudo-arc-length raises, see
`cpf_corrector_mode3_raises_cex` — `cpf_corrector` performs at most `max_it`
Newton iterations and returns: converged exactly when the infinity norm of
the augmented mismatch at the returned point is strictly below `tol`
(that norm is the returned `normF`, evaluated at the returned `(V, lam)`),
with iteration count 0 when the trial point already satisfies the tolerance,
and converged false with iteration count exactly `max_it` otherwise. -/
theorem cpf_corrector_characterization (Ybus : List (List ℂ))
    (Sbus V0 : List ℂ) (pv pq : List ℕ) (lam0 : ℝ) (Sxfr Vprv : List ℂ)
    (lamprv : ℝ) (z : List ℝ) (step : ℝ) (p : ℤ) (tol : ℝ) (max_it : ℕ)
    (dxO : ℕ → List ℝ) (hp : p = 1 ∨ p = 2) :
    ∃ (V1 : List ℂ) (conv : Bool) (i : ℕ) (lam1 nF : ℝ),
      cpf_corrector Ybus Sbus V0 pv pq lam0 Sxfr Vprv lamprv z step p tol
          max_it dxO = some (V1, conv, i, lam1, nF)
      ∧ i ≤ max_it
      ∧ (conv = true ↔ nF < tol)
      ∧ (conv = false → i = max_it)
      ∧ ∃ P1, cpf_p p step z V1 lam1 Vprv lamprv pv pq (pv ++ pq) = some P1
          ∧ nF = infNorm (corrFloop Ybus Sbus Sxfr V1 lam1 pv pq ++ [P1]) := by
  obtain ⟨P0, hP0⟩ := cpf_p_some_of_mode12 p step z V0 lam0 Vprv lamprv pv pq (pv ++ pq) hp
  simp only [cpf_corrector, hP0]
  by_cases h0 : infNorm (corrF0 Ybus Sbus Sxfr V0 lam0 pq (pv ++ pq) ++ [P0]) < tol
  · rw [if_pos h0]
    refine ⟨V0, true, 0, lam0, _, rfl, Nat.zero_le _, ?_, by simp, P0, hP0, ?_⟩
    · simp only [corrF0_eq_corrFloop] at h0 ⊢
      simpa using h0
    · rw [corrF0_eq_corrFloop]
  · rw [if_neg h0]
    obtain ⟨V1, conv, i1, lam1, nF, hgo, _h1, h2, h3, h4, hP⟩ :=
      cpf_corrector_go_spec Ybus Sbus Sxfr pv pq Vprv lamprv z step p tol dxO hp
        max_it 0 (V0.map Complex.arg) (V0.map Complex.abs) V0 lam0 _ h0
        ⟨P0, hP0, by rw [corrF0_eq_corrFloop]⟩
    exact ⟨V1, conv, i1, lam1, nF, hgo, by omega, h3,
      fun h => by have := h4 h; omega, hP⟩

theorem cpf_corrector_characterization_witness :
    ∃ (V1 : List ℂ) (conv : Bool) (i : ℕ) (lam1 nF : ℝ),
      cpf_corrector [[1]] [1] [1] [] [0] 0 [0] [1] 0 [0, 0, 1] 0 1 (1/1000) 20
          (fun _ => [0, 0, 0]) = some (V1, conv, i, lam1, nF)
      ∧ i ≤ 20
      ∧ (conv = true ↔ nF < 1/1000)
      ∧ (conv = false → i = 20)
      ∧ ∃ P1, cpf_p 1 0 [0, 0, 1] V1 lam1 [1] 0 [] [0] ([] ++ [0]) = some P1
          ∧ nF = infNorm (corrFloop [[1]] [1] [0] V1 lam1 [] [0] ++ [P1]) :=
  cpf_corrector_characterization [[1]] [1] [1] [] [0] 0 [0] [1] 0 [0, 0, 1]
    0 1 (1/1000) 20 (fun _ => [0, 0, 0]) (Or.inl rfl)

theorem infNorm_nonneg (xs : List ℝ) : 0 ≤ infNorm xs := by
  induction xs with
  | nil => simp [infNorm]
  | cons x l ih =>
    simp only [infNorm, List.map_cons, List.foldr] at ih ⊢
    exact le_max_of_le_right ih

theorem infNorm_append (a b : List ℝ) :
    infNorm (a ++ b) = max (infNorm a) (infNorm b) := by
  induction a with
  | nil =>
    simp only [List.nil_append, infNorm, List.map_nil, List.foldr_nil]
    exact (max_eq_right (infNorm_nonneg b)).symm
  | cons x l ih =>
    simp only [List.cons_append, infNorm, List.map_cons, List.foldr_cons] at ih ⊢
    rw [ih, max_assoc]

theorem infNorm_singleton (x : ℝ) : infNorm [x] = |x| := by
  simp [infNorm, max_eq_left (abs_nonneg x)]

theorem cpf_error_fn_decomp (V V0 : List ℂ) (lam lam0 : ℝ) (pv pq : List ℕ) :
    cpf_error_fn V V0 lam lam0 pv pq
      = max (infNorm (listSub (sel (V.map Complex.arg) pq)
                              (sel (V0.map Complex.arg) pq)))
          (max (infNorm (listSub (sel (V.map Complex.abs) (pv ++ pq))
                                 (sel (V0.map Complex.abs) (pv ++ pq))))
            |lam - lam0|) := by
  simp only [cpf_error_fn]
  have h1 : (sel (V.map Complex.arg) pq).length
      = (sel (V0.map Complex.arg) pq).length := by
    rw [sel_length, sel_length]
  have h2 : (sel (V.map Complex.arg) pq ++ sel (V.map Complex.abs) (pv ++ pq)).length
      = (sel (V0.map Complex.arg) pq ++ sel (V0.map Complex.abs) (pv ++ pq)).length := by
    simp [sel_length]
  rw [listSub_append _ _ h2, listSub_append _ _ h1, infNorm_append, infNorm_append]
  have hs : listSub [lam] [lam0] = [lam - lam0] := rfl
  rw [hs, infNorm_singleton, max_assoc]

/-- C4 (amended): after an accepted step with adaptation enabled and the
continuation not stopped, the driver computes the local prediction error as
the infinity norm of the difference between the corrected and the predicted
trial solution restricted to (angle at PQ buses, magnitude at PV and PQ
buses, λ) — not angles over all non-reference buses, see
`cpf_error_index_layout_cex` — and multiplies the step by
`error_tol / error` in both branches, capping the result at `step_max` when
the error is below `error_tol` and flooring it at `step_min` otherwise. -/
theorem adapt_step_update_spec (error_tol step_min step_max : ℝ)
    (V V0 : List ℂ) (lam lam0 : ℝ) (pv pq : List ℕ) (step : ℝ) :
    adapt_step_code error_tol step_min step_max V V0 lam lam0 pv pq step
      = (if cpf_error_fn V V0 lam lam0 pv pq < error_tol
         then min (step * error_tol / cpf_error_fn V V0 lam lam0 pv pq) step_max
         else max (step * error_tol / cpf_error_fn V V0 lam lam0 pv pq) step_min)
    ∧ cpf_error_fn V V0 lam lam0 pv pq
      = max (infNorm (listSub (sel (V.map Complex.arg) pq)
                              (sel (V0.map Complex.arg) pq)))
          (max (infNorm (listSub (sel (V.map Complex.abs) (pv ++ pq))
                                 (sel (V0.map Complex.abs) (pv ++ pq))))
            |lam - lam0|) := by
  refine ⟨?_, cpf_error_fn_decomp V V0 lam lam0 pv pq⟩
  simp only [adapt_step_code]
  by_cases h : cpf_error_fn V V0 lam lam0 pv pq < error_tol
  · rw [if_pos h, if_pos h]
    rcases le_or_lt (step * error_tol / cpf_error_fn V V0 lam lam0 pv pq) step_max with h2 | h2
    · rw [if_neg (not_lt.mpr h2), min_eq_left h2]
    · rw [if_pos h2, min_eq_right (le_of_lt h2)]
  · rw [if_neg h, if_neg h]
    rcases le_or_lt step_min (step * error_tol / cpf_error_fn V V0 lam lam0 pv pq) with h2 | h2
    · rw [if_neg (not_lt.mpr h2), max_eq_left h2]
    · rw [if_pos h2, max_eq_right (le_of_lt h2)]

/-- C4 counterexample: at a point whose predicted and corrected voltages
differ only in the voltage angle at a PV bus (plus a small lambda change),
the error the code computes ignores that angle difference (it reads angles at
PQ buses only), while the claim's layout — angle at all non-reference
buses — sees it: the two formulas disagree, so the claim misdescribes the
restriction. -/
theorem cpf_error_index_layout_cex :
    cpf_error_fn [1, 1, 1] [1, -1, 1] 0 (1/100) [1] [2] = 1/100
    ∧ cpf_error_claim [1, 1, 1] [1, -1, 1] 0 (1/100) [1] [2] = Real.pi
    ∧ cpf_error_fn [1, 1, 1] [1, -1, 1] 0 (1/100) [1] [2]
        ≠ cpf_error_claim [1, 1, 1] [1, -1, 1] 0 (1/100) [1] [2] := by
  have hπ : (3 : ℝ) < Real.pi := Real.pi_gt_three
  have h1 : cpf_error_fn [1, 1, 1] [1, -1, 1] 0 (1/100) [1] [2] = 1/100 := by
    simp [cpf_error_fn, sel, listSub, infNorm, Complex.arg_one,
      Complex.abs.map_neg]
  have h2 : cpf_error_claim [1, 1, 1] [1, -1, 1] 0 (1/100) [1] [2] = Real.pi := by
    simp [cpf_error_claim, sel, listSub, infNorm, Complex.arg_one,
      Complex.arg_neg_one, Complex.abs.map_neg]
    have ha : |Real.pi| = Real.pi := abs_of_nonneg Real.pi_pos.le
    have hb : |(100 : ℝ)⁻¹| = (100 : ℝ)⁻¹ := abs_of_nonneg (by norm_num)
    rw [ha, hb]
    exact max_eq_left (by nlinarith)
  exact ⟨h1, h2, by rw [h1, h2]; intro h; nlinarith⟩

/-- C2 counterexample: with `adapt_step` enabled, a run in FULL mode whose
second accepted lambda is `1/1000` triggers the overshoot branch
`step = lam` (line 869), which does not clamp to `[step_min, step_max]` and
simultaneously disables adaptation, so the third predictor/corrector call is
made with step `1/1000 < step_min = 1/100`: the step-bounds claim fails on
the overshoot-handling branches. -/
theorem pyUpper_FULL : pyUpper "FULL" = "FULL" := by decide

theorem runcpf2_step_bounds_cex :
    stepsLogOf (runcpf2 cfgC2 osC2 (0 : ℚ) 1 (1/2) 3 true 3)
      = [1/2, 1/2, 1/1000]
    ∧ ¬ (cfgC2.step_min ≤ 1/1000) := by
  constructor
  · norm_num [runcpf2, runLoop, driverIter, applyStopRules, applyAdapt,
      adaptStepQ, stepsLogOf, cfgC2, osC2, pyUpper_FULL,
      abs_of_nonneg (show (0 : ℚ) ≤ 1/2 by norm_num),
      abs_of_nonneg (show (0 : ℚ) ≤ 1/1000 by norm_num)]
  · norm_num [cfgC2]

/-- C2 (amended): the steps produced by the adaptive-step branch itself do
stay inside `[step_min, step_max]` — whenever the incoming step lies in the
interval, the tolerance is positive and the prediction error is positive,
the updated step lies in the interval again.  The overshoot-handling
branches (`step = lam` in FULL mode, `step = stop_at - lam` for a numeric
target) are exempt from the claim: they set the step without clamping while
disabling adaptation, and can leave the interval
(see `runcpf2_step_bounds_cex`). -/
theorem adaptStepQ_bounds (error_tol step_min step_max step e : ℚ)
    (hmin : 0 < step_min) (htol : 0 < error_tol) (he : 0 < e)
    (h1 : step_min ≤ step) (h2 : step ≤ step_max) :
    step_min ≤ adaptStepQ error_tol step_min step_max step e
    ∧ adaptStepQ error_tol step_min step_max step e ≤ step_max := by
  have hstep : 0 < step := lt_of_lt_of_le hmin h1
  have hminmax : step_min ≤ step_max := le_trans h1 h2
  unfold adaptStepQ
  by_cases h : e < error_tol
  · rw [if_pos h]
    have hratio : 1 ≤ error_tol / e := (one_le_div he).mpr (le_of_lt h)
    have hgrow : step ≤ step * error_tol / e := by
      rw [mul_div_assoc]
      nlinarith
    by_cases hcap : step * error_tol / e > step_max
    · rw [if_pos hcap]
      exact ⟨hminmax, le_refl _⟩
    · rw [if_neg hcap]
      exact ⟨le_trans h1 hgrow, not_lt.mp hcap⟩
  · rw [if_neg h]
    have hle : error_tol ≤ e := not_lt.mp h
    have hshrink : step * error_tol / e ≤ step := by
      rw [mul_div_assoc]
      have : error_tol / e ≤ 1 := (div_le_one he).mpr hle
      nlinarith
    by_cases hfloor : step * error_tol / e < step_min
    · rw [if_pos hfloor]
      exact ⟨le_refl _, hminmax⟩
    · rw [if_neg hfloor]
      exact ⟨not_lt.mp hfloor, le_trans hshrink h2⟩

theorem adaptStepQ_bounds_witness :
    (0 : ℚ) < 1/100 ∧ (0 : ℚ) < 1/10 ∧ (0 : ℚ) < 1/5
    ∧ (1/100 : ℚ) ≤ 1/2 ∧ (1/2 : ℚ) ≤ 1
    ∧ ((1/100 : ℚ) ≤ adaptStepQ (1/10) (1/100) 1 (1/2) (1/5)
        ∧ adaptStepQ (1/10) (1/100) 1 (1/2) (1/5) ≤ 1) :=
  ⟨by norm_num, by norm_num, by norm_num, by norm_num, by norm_num,
    adaptStepQ_bounds (1/10) (1/100) 1 (1/2) (1/5)
      (by norm_num) (by norm_num) (by norm_num) (by norm_num) (by norm_num)⟩

/-- C3 (amended): with `stop_at` a string other than "NOSE"/"FULL"
(case-insensitively), the driver raises the stop-point-not-recognised
exception at the first evaluation of the stopping rules — that is, only
after one full predictor/corrector step has been executed and (the corrector
having converged) its point appended — not before the first continuation
step. -/
theorem runcpf2_bad_stop_raises_after_one_step {α : Type} (cfg : CpfCfg)
    (os : Oracles α) (V : α) (nb : ℕ) (step0 : ℚ) (order : ℤ) (adapt : Bool)
    (fuel : ℕ) (s : String)
    (hs : cfg.stop_at = .str s)
    (hF : pyUpper s ≠ "FULL") (hN : pyUpper s ≠ "NOSE")
    (hfuel : 1 ≤ fuel) (hsucc : corrSucc os 1 = true) :
    ∃ stf, runcpf2 cfg os V nb step0 order adapt fuel
        = RunOut.raised ("Stop point " ++ s ++ " not recognised.") stf
      ∧ stf.cont_steps = 1
      ∧ stf.Vser = [corrV os 1]
      ∧ stf.Lser = [corrLam os 1] := by
  obtain ⟨fuel', rfl⟩ : ∃ f, fuel = f + 1 := by
    cases fuel with
    | zero => omega
    | succ f => exact ⟨f, rfl⟩
  rcases hp : os.pred 1 with ⟨V0, lam0, z1⟩
  rcases hc : os.corr 1 with ⟨V1, succ, i, lam1, nF⟩
  have hsucc1 : succ = true := by
    have := hsucc
    rw [corrSucc, hc] at this
    exact this
  subst hsucc1
  have hV1 : corrV os 1 = V1 := by rw [corrV, hc]
  have hlam1 : corrLam os 1 = lam1 := by rw [corrLam, hc]
  refine ⟨⟨V1, lam1, V, 0, z1, step0, order, adapt, 1, [V1], [lam1], nF, true,
    [step0]⟩, ?_, rfl, by simp [hV1], by simp [hlam1]⟩
  simp only [runcpf2, runLoop, driverIter, hp, hc, hs, applyStopRules]
  rw [if_neg hF, if_neg hN]
  simp

/-- C3 counterexample: with the unrecognized stop string "Banana", the run
does raise the stop-point-not-recognised exception, but only after one full
predictor/corrector step has been executed and its accepted point appended
(`cont_steps = 1`, series of length one) — not "immediately, before any
predictor or corrector step is attempted" as the claim states. -/
theorem pyUpper_Banana : pyUpper "Banana" = "BANANA" := by decide

theorem runcpf2_bad_stop_cex :
    raisedMsgOf (runcpf2 cfgC3 osC3 (0 : ℚ) 1 (1/2) 3 true 5)
        = some "Stop point Banana not recognised."
    ∧ (stateOf (runcpf2 cfgC3 osC3 (0 : ℚ) 1 (1/2) 3 true 5)).cont_steps = 1
    ∧ (stateOf (runcpf2 cfgC3 osC3 (0 : ℚ) 1 (1/2) 3 true 5)).Vser = [0]
    ∧ (stateOf (runcpf2 cfgC3 osC3 (0 : ℚ) 1 (1/2) 3 true 5)).Lser = [1/2] := by
  norm_num [runcpf2, runLoop, driverIter, applyStopRules, applyAdapt,
    adaptStepQ, raisedMsgOf, stateOf, cfgC3, osC3, pyUpper_Banana,
    (show ("BANANA" : String) ≠ "FULL" by decide),
    (show ("BANANA" : String) ≠ "NOSE" by decide)]
  decide

theorem runcpf2_bad_stop_raises_after_one_step_witness :
    ∃ stf, runcpf2 cfgC3 osC3 (0 : ℚ) 1 (1/2) 3 true 5
        = RunOut.raised ("Stop point " ++ "Banana" ++ " not recognised.") stf
      ∧ stf.cont_steps = 1
      ∧ stf.Vser = [corrV osC3 1]
      ∧ stf.Lser = [corrLam osC3 1] :=
  runcpf2_bad_stop_raises_after_one_step cfgC3 osC3 (0 : ℚ) 1 (1/2) 3 true 5
    "Banana" rfl (by decide) (by decide) (by norm_num)
    (by rw [corrSucc]; rfl)

theorem applyAdapt_fields {α : Type} (cfg : CpfCfg) (e : ℚ)
    (st : DriverSt α) :
    (applyAdapt cfg e st).Vser = st.Vser ∧ (applyAdapt cfg e st).Lser = st.Lser
    ∧ (applyAdapt cfg e st).cont_steps = st.cont_steps := by
  unfold applyAdapt
  split_ifs <;> simp

theorem applyStopRules_inl {α : Type} (sa : StopAt) (st st1 : DriverSt α)
    (h : applyStopRules sa st = Sum.inl st1) :
    st1.Vser = st.Vser ∧ st1.Lser = st.Lser
    ∧ st1.cont_steps = st.cont_steps := by
  cases sa <;> simp only [applyStopRules] at h <;> split_ifs at h <;>
    simp only [Sum.inl.injEq] at h <;> subst h <;> simp

theorem applyStopRules_inr {α : Type} (sa : StopAt) (st : DriverSt α)
    (out : RunOut α) (h : applyStopRules sa st = Sum.inr out) :
    out = RunOut.done st.Vser st.Lser st.normF st.success st
    ∨ ∃ msg, out = RunOut.raised msg st := by
  cases sa <;> simp only [applyStopRules] at h <;> split_ifs at h <;>
    simp only [Sum.inr.injEq] at h <;> subst h
  all_goals first
    | exact Or.inl rfl
    | exact Or.inr ⟨_, rfl⟩

theorem driverIter_inl {α : Type} (cfg : CpfCfg) (os : Oracles α)
    (st st1 : DriverSt α) (h : driverIter cfg os st = Sum.inl st1) :
    corrSucc os (st.cont_steps + 1) = true
    ∧ st1.cont_steps = st.cont_steps + 1
    ∧ st1.Vser = st.Vser ++ [corrV os (st.cont_steps + 1)]
    ∧ st1.Lser = st.Lser ++ [corrLam os (st.cont_steps + 1)] := by
  rcases hp : os.pred (st.cont_steps + 1) with ⟨V0, lam0, z1⟩
  rcases hc : os.corr (st.cont_steps + 1) with ⟨V1, succ, i, lam1, nF⟩
  have hV1 : corrV os (st.cont_steps + 1) = V1 := by rw [corrV, hc]
  have hlam1 : corrLam os (st.cont_steps + 1) = lam1 := by rw [corrLam, hc]
  have hsucc : corrSucc os (st.cont_steps + 1) = succ := by rw [corrSucc, hc]
  simp only [driverIter, hp, hc] at h
  cases succ with
  | false => simp at h
  | true =>
    rw [if_neg (by simp)] at h
    refine ⟨hsucc, ?_⟩
    rcases hsr : applyStopRules cfg.stop_at
        { st with
          cont_steps := st.cont_steps + 1
          V_prev := st.V
          lam_prev := st.lam
          z := z1
          steps_log := st.steps_log ++ [st.step]
          V := V1
          lam := lam1
          normF := nF
          success := true
          Vser := st.Vser ++ [V1]
          Lser := st.Lser ++ [lam1] } with st3 | out
    · rw [hsr] at h
      simp only [Sum.inl.injEq] at h
      obtain ⟨h1, h2, h3⟩ := applyStopRules_inl _ _ _ hsr
      obtain ⟨a1, a2, a3⟩ := applyAdapt_fields cfg (os.err (st.cont_steps + 1)) st3
      subst h
      refine ⟨?_, ?_, ?_⟩
      · rw [a3, h3]
      · rw [a1, h1, hV1]
      · rw [a2, h2, hlam1]
    · rw [hsr] at h
      simp at h

theorem driverIter_inr_done {α : Type} (cfg : CpfCfg) (os : Oracles α)
    (st : DriverSt α) (out : RunOut α) (Vs : List α) (Ls : List ℚ) (nF : ℚ)
    (stf : DriverSt α) (h : driverIter cfg os st = Sum.inr out)
    (hdone : out = RunOut.done Vs Ls nF false stf) :
    corrSucc os (st.cont_steps + 1) = false
    ∧ Vs = st.Vser ∧ Ls = st.Lser ∧ nF = corrNormF os (st.cont_steps + 1) := by
  subst hdone
  rcases hp : os.pred (st.cont_steps + 1) with ⟨V0, lam0, z1⟩
  rcases hc : os.corr (st.cont_steps + 1) with ⟨V1, succ, i, lam1, nF1⟩
  have hsucc : corrSucc os (st.cont_steps + 1) = succ := by rw [corrSucc, hc]
  have hnF : corrNormF os (st.cont_steps + 1) = nF1 := by rw [corrNormF, hc]
  simp only [driverIter, hp, hc] at h
  cases succ with
  | false =>
    rw [if_pos (by simp)] at h
    simp only [Sum.inr.injEq, RunOut.done.injEq] at h
    obtain ⟨h1, h2, h3, _, _⟩ := h
    exact ⟨hsucc, by simp [h1], by simp [h2], by rw [hnF, h3]⟩
  | true =>
    rw [if_neg (by simp)] at h
    rcases hsr : applyStopRules cfg.stop_at
        { st with
          cont_steps := st.cont_steps + 1
          V_prev := st.V
          lam_prev := st.lam
          z := z1
          steps_log := st.steps_log ++ [st.step]
          V := V1
          lam := lam1
          normF := nF1
          success := true
          Vser := st.Vser ++ [V1]
          Lser := st.Lser ++ [lam1] } with st3 | out'
    · rw [hsr] at h
      simp at h
    · rw [hsr] at h
      simp only [Sum.inr.injEq] at h
      subst h
      rcases applyStopRules_inr _ _ _ hsr with hd | ⟨msg, hr⟩
      · rw [RunOut.done.injEq] at hd
        obtain ⟨_, _, _, hfalse, _⟩ := hd
        simp at hfalse
      · simp at hr

theorem runLoop_fail_spec {α : Type} (cfg : CpfCfg) (os : Oracles α) :
    ∀ (fuel : ℕ) (st : DriverSt α) (Vs : List α) (Ls : List ℚ) (nF : ℚ)
      (stf : DriverSt α),
      runLoop cfg os fuel st = RunOut.done Vs Ls nF false stf →
      ∃ m, st.cont_steps < m
        ∧ (∀ j, st.cont_steps < j → j < m → corrSucc os j = true)
        ∧ corrSucc os m = false
        ∧ Vs = st.Vser ++ acceptedV os st.cont_steps (m - st.cont_steps - 1)
        ∧ Ls = st.Lser ++ acceptedLam os st.cont_steps (m - st.cont_steps - 1)
        ∧ nF = corrNormF os m := by
  intro fuel
  induction fuel with
  | zero =>
    intro st Vs Ls nF stf h
    simp [runLoop] at h
  | succ fuel ih =>
    intro st Vs Ls nF stf h
    rcases hit : driverIter cfg os st with st1 | out
    · rw [runLoop, hit] at h
      obtain ⟨m, h1, h2, h3, h4, h5, h6⟩ := ih st1 Vs Ls nF stf h
      obtain ⟨d1, d2, d3, d4⟩ := driverIter_inl cfg os st st1 hit
      rw [d2] at h1
      refine ⟨m, by omega, ?_, h3, ?_, ?_, h6⟩
      · intro j hj1 hj2
        rcases Nat.lt_or_ge (st.cont_steps + 1) j with hgt | hle
        · exact h2 j (by omega) hj2
        · have : j = st.cont_steps + 1 := by omega
          rw [this]
          exact d1
      · rw [h4, d3, d2]
        have harith : m - st.cont_steps - 1 = (m - (st.cont_steps + 1) - 1) + 1 := by
          omega
        rw [harith, acceptedV, List.append_assoc]
        rfl
      · rw [h5, d4, d2]
        have harith : m - st.cont_steps - 1 = (m - (st.cont_steps + 1) - 1) + 1 := by
          omega
        rw [harith, acceptedLam, List.append_assoc]
        rfl
    · rw [runLoop, hit] at h
      obtain ⟨d1, d2, d3, d4⟩ := driverIter_inr_done cfg os st out Vs Ls nF stf hit h
      refine ⟨st.cont_steps + 1, by omega, ?_, d1, ?_, ?_, d4⟩
      · intro j hj1 hj2
        omega
      · rw [d2]
        simp [acceptedV]
      · rw [d3]
        simp [acceptedLam]

/-- C8: whenever a corrector call inside `runcpf2` reports failure, the
driver stops without appending the failed point: if a run returns
`success = false`, there is a first failing corrector call `m`, every
earlier call succeeded, the returned `Voltage_series` and `Lambda_series`
are exactly the `(V, lam)` pairs of those successful calls `1, ..., m-1` in
order, and the returned `normF` is the failing call's mismatch norm. -/
theorem runcpf2_corrector_failure_truncates {α : Type} (cfg : CpfCfg)
    (os : Oracles α) (V : α) (nb : ℕ) (step0 : ℚ) (order : ℤ) (adapt : Bool)
    (fuel : ℕ) (Vs : List α) (Ls : List ℚ) (nF : ℚ)
    (h : doneTuple (runcpf2 cfg os V nb step0 order adapt fuel)
      = some (Vs, Ls, nF, false)) :
    ∃ m, 0 < m
      ∧ (∀ j, 0 < j → j < m → corrSucc os j = true)
      ∧ corrSucc os m = false
      ∧ Vs = acceptedV os 0 (m - 1)
      ∧ Ls = acceptedLam os 0 (m - 1)
      ∧ nF = corrNormF os m := by
  rcases hrun : runcpf2 cfg os V nb step0 order adapt fuel with
    ⟨Vs', Ls', nF', s', st'⟩ | ⟨msg, st'⟩ | st'
  · rw [hrun] at h
    simp only [doneTuple, Option.some.injEq, Prod.mk.injEq] at h
    obtain ⟨rfl, rfl, rfl, hs⟩ := h
    rw [hs] at hrun
    rw [runcpf2] at hrun
    obtain ⟨m, h1, h2, h3, h4, h5, h6⟩ :=
      runLoop_fail_spec cfg os fuel _ Vs' Ls' nF' st' hrun
    refine ⟨m, by simpa using h1, by simpa using h2, h3, ?_, ?_, h6⟩
    · simpa using h4
    · simpa using h5
  · rw [hrun] at h
    simp [doneTuple] at h
  · rw [hrun] at h
    simp [doneTuple] at h

theorem pyUpper_NOSE : pyUpper "NOSE" = "NOSE" := by decide

theorem runcpf2_corrector_failure_truncates_witness :
    doneTuple (runcpf2 cfgC8 osC8 (0 : ℚ) 1 (1/2) 3 true 4)
      = some ([7], [1/2], 5, false)
    ∧ ∃ m, 0 < m
      ∧ (∀ j, 0 < j → j < m → corrSucc osC8 j = true)
      ∧ corrSucc osC8 m = false
      ∧ [(7 : ℚ)] = acceptedV osC8 0 (m - 1)
      ∧ [(1/2 : ℚ)] = acceptedLam osC8 0 (m - 1)
      ∧ (5 : ℚ) = corrNormF osC8 m := by
  have hrun : doneTuple (runcpf2 cfgC8 osC8 (0 : ℚ) 1 (1/2) 3 true 4)
      = some ([7], [1/2], 5, false) := by
    norm_num [runcpf2, runLoop, driverIter, applyStopRules, applyAdapt,
      adaptStepQ, doneTuple, cfgC8, osC8, pyUpper_NOSE,
      (show ("NOSE" : String) ≠ "FULL" by decide)]
  exact ⟨hrun, runcpf2_corrector_failure_truncates cfgC8 osC8 0 1 (1/2) 3 true 4
    [7] [1/2] 5 hrun⟩
